import Mathlib

/-!
# Verification of OrpheusDL's request-resolution and interactive-disambiguation core

Shallow embedding of `orpheus.py` (the front-end dispatcher of OrpheusDL).
Python strings are modelled as `List Char`; Python `None`-able integers as
`Option Nat`; Python dicts (which preserve insertion order) as association
lists `List (key × value)` iterated in order.  Process termination via
`exit()` and raised exceptions are modelled as explicit outcome constructors.
-/

namespace Orpheus

/-! ## Basic Python string primitives -/

/-- One decimal digit character, `d ≤ 9` expected (models the digits of
Python `str(n)`). -/
def natDigit (d : Nat) : Char := Char.ofNat (48 + d)

/-- Python `str(n)` for a non-negative integer: standard decimal digits,
most significant first. -/
def pyStr (n : Nat) : List Char :=
  if _h : n < 10 then [natDigit n]
  else pyStr (n / 10) ++ [natDigit (n % 10)]
  decreasing_by exact Nat.div_lt_self (by omega) (by omega)

/-- Python `int(s)` on a digits-only string: decimal value, left fold. -/
def pyInt (l : List Char) : Nat :=
  l.foldl (fun a c => 10 * a + (c.toNat - 48)) 0

/-- Python `s.isdigit()` (ASCII digits; empty string is not a digit string). -/
def pyIsDigit (l : List Char) : Bool :=
  !l.isEmpty && l.all (·.isDigit)

/-- Python `s.lower()`. -/
def pyLower (l : List Char) : List Char := l.map Char.toLower

/-- Python `f"{s:<w}"`: left-justify, pad with spaces to width `w`
(no truncation when longer). -/
def pyLJust (l : List Char) (w : Nat) : List Char :=
  l ++ List.replicate (w - l.length) ' '

/-- Python `", ".join(xs)`. -/
def pyJoin (sep : List Char) : List (List Char) → List Char
  | [] => []
  | [x] => x
  | x :: y :: rest => x ++ sep ++ pyJoin sep (y :: rest)

/-- Python `s.split(sep)` for a one-character separator. -/
def splitOnChar (sep : Char) : List Char → List (List Char)
  | [] => [[]]
  | c :: rest =>
    match splitOnChar sep rest with
    | [] => [[]]
    | x :: xs => if c = sep then [] :: x :: xs else (c :: x) :: xs

/-! ### Lemmas about the primitives -/

theorem natDigit_isDigit {d : Nat} (h : d < 10) : (natDigit d).isDigit = true := by
  interval_cases d <;> decide

theorem natDigit_toNat {d : Nat} (h : d < 10) : (natDigit d).toNat = 48 + d := by
  interval_cases d <;> decide

theorem pyInt_append_digit (l : List Char) (c : Char) :
    pyInt (l ++ [c]) = 10 * pyInt l + (c.toNat - 48) := by
  simp [pyInt, List.foldl_append]

theorem pyStr_ne_nil (n : Nat) : pyStr n ≠ [] := by
  rw [pyStr]
  split <;> simp

theorem pyStr_all_digits (n : Nat) : (pyStr n).all (·.isDigit) = true := by
  induction n using Nat.strong_induction_on with
  | _ n ih =>
    rw [pyStr]
    split
    · simp [natDigit_isDigit ‹n < 10›]
    · rename_i h
      have h10 : 10 ≤ n := by omega
      have := ih (n / 10) (Nat.div_lt_self (by omega) (by omega))
      simp only [List.all_append, this, Bool.true_and, List.all_cons, List.all_nil]
      simp [natDigit_isDigit (Nat.mod_lt n (by omega))]

theorem pyInt_pyStr (n : Nat) : pyInt (pyStr n) = n := by
  induction n using Nat.strong_induction_on with
  | _ n ih =>
    rw [pyStr]
    split
    · rename_i h
      simp [pyInt, natDigit_toNat h]
    · rename_i h
      rw [pyInt_append_digit, ih (n / 10) (Nat.div_lt_self (by omega) (by omega)),
        natDigit_toNat (Nat.mod_lt n (by omega))]
      omega

theorem pyIsDigit_pyStr (n : Nat) : pyIsDigit (pyStr n) = true := by
  have h1 := pyStr_ne_nil n
  have h2 := pyStr_all_digits n
  simp [pyIsDigit, h2]
  cases h : pyStr n with
  | nil => exact absurd h h1
  | cons a l => simp [List.isEmpty]

theorem natDigit_toLower {d : Nat} (h : d < 10) : (natDigit d).toLower = natDigit d := by
  interval_cases d <;> decide

theorem pyLower_append (a b : List Char) :
    pyLower (a ++ b) = pyLower a ++ pyLower b := by
  simp [pyLower]

theorem pyLower_pyStr (n : Nat) : pyLower (pyStr n) = pyStr n := by
  induction n using Nat.strong_induction_on with
  | _ n ih =>
    rw [pyStr]
    split
    · simp [pyLower, natDigit_toLower ‹n < 10›]
    · rename_i h
      rw [pyLower_append, ih (n / 10) (Nat.div_lt_self (by omega) (by omega))]
      simp [pyLower, natDigit_toLower (Nat.mod_lt n (by omega))]

/-! ## Errors and outcomes

`orpheus.py` signals failures by raising `Exception(msg)` and user-initiated
quit by calling `exit()` (successful process termination).  We model both as
explicit constructors.  The spec's error taxonomy maps onto the messages:
`InvalidInput` = "Input a number" / "Invalid selection"; `UnroutableURL` =
"URL location … is not found in modules!" and the no-type-match "Invalid
URL" exit; `MalformedURL` = the short-path "Invalid URL" exit;
`NoSearchResults` = "No search results for …". -/

inductive OrpheusError where
  /-- Models `raise Exception('Input a number')` / `raise Exception('Invalid selection')`. -/
  | invalidInput (msg : List Char)
  /-- Models `raise Exception('URL location "…" is not found in modules!')`. -/
  | unroutableLocation (netloc : List Char)
  /-- Models `print(f'\tInvalid URL: …'); exit()` on a path with too few segments. -/
  | malformedUrl
  /-- Models `print(f'Invalid URL: …'); exit()` when no routing-rule key matches. -/
  | noTypeMatch
  /-- Models `raise Exception(f'No search results for …')`. -/
  | noSearchResults
  /-- Models `raise Exception(f'Invalid argument: …')` on a non-http link. -/
  | invalidArgument
  deriving DecidableEq, Repr

/-- Outcome of the selection step: clean `exit()`, a raised error,
or a returned zero-based index. -/
inductive SelectOutcome where
  | exited
  | errored (e : OrpheusError)
  | selected (i : Nat)
  deriving DecidableEq, Repr

/-! ## Selection Validator (`orpheus.py` lines 147-152)

```
if selection_input.lower() in ['e', 'q', 'x', 'exit', 'quit']: exit()
if not selection_input.isdigit(): raise Exception('Input a number')
selection = int(selection_input)-1
if selection < 0 or selection >= len(items): raise Exception('Invalid selection')
return selection
```
-/

/-- The quit aliases `['e', 'q', 'x', 'exit', 'quit']`. -/
def quitAliases : List (List Char) :=
  [['e'], ['q'], ['x'], ['e', 'x', 'i', 't'], ['q', 'u', 'i', 't']]

/-- Section 5 ("PROCESS RESULT") of `interactive_selection`: interpret the raw
selection string given the candidate count `len(items)`.  `int(input)-1` is
computed in `Int` to model Python's unbounded signed arithmetic. -/
def processSelection (input : List Char) (count : Nat) : SelectOutcome :=
  if quitAliases.contains (pyLower input) then .exited
  else if !pyIsDigit input then .errored (.invalidInput "Input a number".data)
  else
    let selection : Int := (pyInt input : Int) - 1
    if selection < 0 || selection ≥ (count : Int) then
      .errored (.invalidInput "Invalid selection".data)
    else .selected selection.toNat

/-- Function `interactive_selection` after the backend produced `selection_input`:
the validation is against the length of `items`. -/
def interactiveSelection (items : List α) (selectionInput : List Char) :
    SelectOutcome :=
  processSelection selectionInput items.length

/-- Every quit alias contains a non-digit character, hence no digit string is
a quit alias. -/
theorem digits_not_quitAlias {l : List Char} (h : l.all (·.isDigit) = true) :
    quitAliases.contains l = false := by
  have hm : l ∉ quitAliases := by
    intro hm
    simp only [quitAliases, List.mem_cons, List.not_mem_nil, or_false] at hm
    rcases hm with h' | h' | h' | h' | h' <;> subst h' <;> simp_all
  simpa using hm

theorem digit_toLower {c : Char} (h : c.isDigit = true) : c.toLower = c := by
  simp [Char.isDigit, decide_eq_true_eq, UInt32.le_def, BitVec.le_def] at h
  simp only [Char.toLower, Char.toNat, UInt32.toNat]
  rw [if_neg]
  omega

theorem pyLower_digits {l : List Char} (h : l.all (·.isDigit) = true) :
    pyLower l = l := by
  induction l with
  | nil => rfl
  | cons c rest ih =>
    simp only [List.all_cons, Bool.and_eq_true] at h
    simp only [pyLower, List.map_cons] at ih ⊢
    rw [digit_toLower h.1, ih h.2]

/-- On a digit string, `processSelection` reduces to the bounds check on the
decimal value. -/
theorem processSelection_digits (s : List Char) (count : Nat)
    (hd : pyIsDigit s = true) :
    processSelection s count =
      (if pyInt s = 0 ∨ pyInt s > count then
        .errored (.invalidInput "Invalid selection".data)
      else .selected (pyInt s - 1)) := by
  have hall : s.all (·.isDigit) = true := by
    simp only [pyIsDigit, Bool.and_eq_true] at hd; exact hd.2
  have hne : ¬ (quitAliases.contains (pyLower s) = true) := by
    rw [pyLower_digits hall, digits_not_quitAlias hall]; simp
  simp only [processSelection, if_neg hne, hd, Bool.not_true, Bool.false_eq_true,
    if_false]
  by_cases hz : pyInt s = 0 ∨ pyInt s > count
  · rw [if_pos, if_pos hz]
    simp only [Bool.or_eq_true, decide_eq_true_eq]
    omega
  · rw [if_neg, if_neg hz]
    · congr 1
      omega
    · simp only [Bool.or_eq_true, decide_eq_true_eq]
      omega

/-! ## Data model -/

/-- Enum `DownloadTypeEnum` from `orpheus.core` (consumed interface): the four
media kinds. -/
inductive DownloadTypeEnum where
  | track | album | playlist | artist
  deriving DecidableEq, Repr

/-- Field `SearchResult.artists` is either a list of strings (joined with `", "`)
or some other value rendered through `str()`; `single s` stands for a
non-list value whose `str()` is `s` (lines 83-87 of `orpheus.py`). -/
inductive ArtistsVal where
  | single (s : List Char)
  | many (l : List (List Char))
  deriving DecidableEq, Repr

/-- Structure `SearchResult` (consumed interface, spec section 3): `extra_kwargs` is an
opaque mapping passed through untouched, irrelevant to every claim, and is
omitted. -/
structure SearchResult where
  result_id : List Char
  name : List Char
  artists : ArtistsVal
  year : Option Nat
  duration : Option Nat
  explicit : Bool
  additional : List (List Char)
  deriving DecidableEq, Repr

/-- Structure `MediaIdentification` (consumed interface): `extra_kwargs` omitted as
above. -/
structure MediaIdentification where
  media_type : DownloadTypeEnum
  media_id : List Char
  deriving DecidableEq, Repr

/-- Python truthiness of an optional integer: `None` and `0` are falsy. -/
def pyTruthy : Option Nat → Bool
  | none => false
  | some n => n != 0

/-! ## Search flow (`orpheus.py` lines 254-269)

```
lucky_mode = True if orpheus_mode == 'luckysearch' else False
items = module.search(..., limit = (1 if lucky_mode else settings_search_limit))
if len(items) == 0: raise Exception(f'No search results for ...')
if lucky_mode:
    selection = 0
else:
    selection = interactive_selection(items, query_type)
selected_item = items[selection]
```
-/

/-- The `limit` passed to `module.search`. -/
def searchLimit (lucky : Bool) (settingsLimit : Nat) : Nat :=
  if lucky then 1 else settingsLimit

/-- The search-and-select step: `searchFn` is the module's `search` as a
function of the limit; `pick` is the interactive selection path (fzf or
fallback plus validation), abstracted as a function of the item list. -/
def searchFlow (lucky : Bool) (searchFn : Nat → List SearchResult)
    (settingsLimit : Nat) (pick : List SearchResult → SelectOutcome) :
    SelectOutcome :=
  let items := searchFn (searchLimit lucky settingsLimit)
  if items.length = 0 then .errored .noSearchResults
  else if lucky then .selected 0
  else pick items

/-- If `processSelection` returns an index, it is below the candidate
count. -/
theorem processSelection_selected_lt {s : List Char} {c i : Nat}
    (h : processSelection s c = .selected i) : i < c := by
  simp only [processSelection] at h
  split at h
  · exact absurd h (by simp)
  · split at h
    · exact absurd h (by simp)
    · split at h
      · exact absurd h (by simp)
      · rename_i hc
        simp only [SelectOutcome.selected.injEq] at h
        simp only [Bool.or_eq_true, decide_eq_true_eq, not_or, not_lt, not_le] at hc
        omega

/-- A concrete `SearchResult` used by the closed witness statements. -/
def sampleResult : SearchResult where
  result_id := "id1".data
  name := "Sample Song".data
  artists := .many ["Alice".data, "Bob".data]
  year := some 2020
  duration := some 200
  explicit := true
  additional := ["HiFi".data]

/-- C1: for every candidate count `N ≥ 1`, the strings `"1"`..`str(N)`
return indices `0`..`N-1`; `"0"`, `str(N+1)` and every other numeric string
whose zero-based value is out of `[0, N)` raise `InvalidInput`; every
non-numeric non-quit string raises `InvalidInput`; and every string whose
lowercase form is a quit alias terminates the process successfully, the quit
check firing before the numeric check. -/
theorem selection_validator_C1 (N : Nat) (_hN : 1 ≤ N) :
    (∀ k, 1 ≤ k → k ≤ N →
      processSelection (pyStr k) N = .selected (k - 1)) ∧
    processSelection (pyStr 0) N =
      .errored (.invalidInput "Invalid selection".data) ∧
    processSelection (pyStr (N + 1)) N =
      .errored (.invalidInput "Invalid selection".data) ∧
    (∀ s, pyIsDigit s = true → (pyInt s = 0 ∨ pyInt s > N) →
      processSelection s N = .errored (.invalidInput "Invalid selection".data)) ∧
    (∀ s, pyIsDigit s = false → quitAliases.contains (pyLower s) = false →
      processSelection s N = .errored (.invalidInput "Input a number".data)) ∧
    (∀ s, quitAliases.contains (pyLower s) = true →
      processSelection s N = .exited) := by
  refine ⟨?_, ?_, ?_, ?_, ?_, ?_⟩
  · intro k hk1 hkN
    rw [processSelection_digits _ _ (pyIsDigit_pyStr k), pyInt_pyStr,
      if_neg (by omega)]
  · rw [processSelection_digits _ _ (pyIsDigit_pyStr 0), pyInt_pyStr,
      if_pos (by omega)]
  · rw [processSelection_digits _ _ (pyIsDigit_pyStr (N + 1)), pyInt_pyStr,
      if_pos (by omega)]
  · intro s hd hz
    rw [processSelection_digits _ _ hd, if_pos hz]
  · intro s hnd hq
    simp only [processSelection]
    rw [if_neg (by simpa using hq), if_pos (by simp [hnd])]
  · intro s hq
    simp only [processSelection]
    rw [if_pos (by simpa using hq)]

/-- Closed witness for C1 at `N = 3`. -/
theorem selection_validator_C1_witness :
    processSelection (pyStr 2) 3 = .selected 1 ∧
    processSelection (pyStr 0) 3 =
      .errored (.invalidInput "Invalid selection".data) ∧
    processSelection (pyStr 4) 3 =
      .errored (.invalidInput "Invalid selection".data) ∧
    processSelection ['a', 'b'] 3 =
      .errored (.invalidInput "Input a number".data) ∧
    processSelection ['Q', 'u', 'i', 'T'] 3 = .exited := by
  have h := selection_validator_C1 3 (by decide)
  exact ⟨h.1 2 (by decide) (by decide), h.2.1, h.2.2.1,
    h.2.2.2.2.1 ['a', 'b'] (by decide) (by decide),
    h.2.2.2.2.2 ['Q', 'u', 'i', 'T'] (by decide)⟩

/-- C8: in lucky mode the search is invoked with limit 1; with at least one
result the selection index is 0 independently of the interactive picker and
fallback (`pick` does not occur on the right-hand side); with zero results
the flow fails with `NoSearchResults` before any selection. -/
theorem lucky_search_C8 (searchFn : Nat → List SearchResult)
    (settingsLimit : Nat) (pick : List SearchResult → SelectOutcome) :
    searchFlow true searchFn settingsLimit pick =
      (if (searchFn 1).length = 0 then .errored .noSearchResults
       else .selected 0) := by
  simp [searchFlow, searchLimit]

/-- C10: whenever the search-and-select flow returns an index (in lucky or
interactive mode, with the interactive path given by `interactive_selection`'s
validation of the raw input), that index is in bounds for the searched item
list. -/
theorem selection_in_bounds_C10 (lucky : Bool)
    (searchFn : Nat → List SearchResult) (settingsLimit : Nat)
    (input : List Char) (i : Nat)
    (h : searchFlow lucky searchFn settingsLimit
      (fun items => interactiveSelection items input) = .selected i) :
    i < (searchFn (searchLimit lucky settingsLimit)).length := by
  simp only [searchFlow] at h
  split at h
  · exact absurd h (by simp)
  · split at h
    · simp only [SelectOutcome.selected.injEq] at h
      omega
    · exact processSelection_selected_lt h

/-- Closed witness for C10: one item, interactive mode, input `"1"`. -/
theorem selection_in_bounds_C10_witness :
    searchFlow false (fun _ => [sampleResult]) 20
      (fun items => interactiveSelection items ['1']) = .selected 0 ∧
    (0 : Nat) < ((fun (_ : Nat) => [sampleResult]) (searchLimit false 20)).length := by
  refine ⟨by decide, ?_⟩
  exact selection_in_bounds_C10 false (fun _ => [sampleResult]) 20 ['1'] 0 (by decide)

/-! ## Candidate Formatter (`orpheus.py` lines 33-98) -/

/-- Python `pat in s` (contiguous substring test). -/
def pyInSubstr (pat : List Char) : List Char → Bool
  | [] => pat.isPrefixOf []
  | l@(_ :: rest) => pat.isPrefixOf l || pyInSubstr pat rest

/-- Line 46-49: truncate the name for the table when longer than 38. -/
def truncName (name : List Char) : List Char :=
  if name.length > 38 then name.take 37 ++ ['…'] else name

/-- Line 52: `year = str(item.year) if item.year else "----"`. -/
def yearField (year : Option Nat) : List Char :=
  if pyTruthy year then pyStr (year.getD 0) else "----".data

/-- Two-digit zero-padded component of a time string. -/
def pad2 (n : Nat) : List Char :=
  if n < 10 then '0' :: pyStr n else pyStr n

/-- Modelled from the spec: `beauty_format_seconds` lives in
`orpheus.music_downloader`, which is not part of `src/`.  Spec section 4.1:
duration renders as `H:MM:SS` / `MM:SS`; the table's short form drops the
seconds exactly when the string contains the hour marker `"h"` (line 56 of
`orpheus.py` tests `"h" in full_dur`), so the hour component carries the
marker. -/
def beauty_format_seconds (secs : Nat) : List Char :=
  let h := secs / 3600
  let m := (secs % 3600) / 60
  let s := secs % 60
  if h ≠ 0 then pyStr h ++ 'h' :: ':' :: pad2 m ++ ':' :: pad2 s
  else pad2 m ++ ':' :: pad2 s

/-- Line 55: `full_dur = beauty_format_seconds(item.duration) if item.duration
else "--:--"`. -/
def fullDur (duration : Option Nat) : List Char :=
  if pyTruthy duration then beauty_format_seconds (duration.getD 0) else "--:--".data

/-- Lines 56-60: hide the seconds when the duration exceeds one hour. -/
def shortDur (fd : List Char) : List Char :=
  if fd.contains 'h' then
    match splitOnChar ':' fd with
    | p0 :: p1 :: _ => p0 ++ ':' :: p1
    | _ => fd
  else fd

/-- Line 63: the explicit marker column. -/
def explChar (e : Bool) : List Char := if e then ['E'] else [' ']

/-- Line 66: `full_qual = item.additional[0] if item.additional else "----"`. -/
def fullQual (additional : List (List Char)) : List Char :=
  match additional with
  | [] => "----".data
  | a :: _ => a

/-- Lines 67-74: map long quality names to short codes. -/
def shortQual (fq : List Char) : List Char :=
  if pyInSubstr "Dolby Atmos".data fq then "DA".data
  else if pyInSubstr "Master".data fq then "Mast".data
  else if pyInSubstr "HiFi".data fq then "HiFi".data
  else fq.take 6

/-- Lines 83-87: the hidden artist field. -/
def fullArtist : ArtistsVal → List Char
  | .single s => s
  | .many l => pyJoin ", ".data l

/-- Line 89: `is_expl_str = "1" if item.explicit else "0"`. -/
def explFlag (e : Bool) : List Char := if e then ['1'] else ['0']

/-- Line 90: `h_year = year if item.year else ""`. -/
def hiddenYear (year : Option Nat) : List Char :=
  if pyTruthy year then yearField year else []

/-- Line 91: `h_dur = full_dur if item.duration else ""`. -/
def hiddenDur (duration : Option Nat) : List Char :=
  if pyTruthy duration then fullDur duration else []

/-- Line 92: `h_qual = full_qual if item.additional else ""`. -/
def hiddenQual (additional : List (List Char)) : List Char :=
  if additional.isEmpty then [] else fullQual additional

/-- Line 95: `hidden = f"{item.name}|{full_artist}|{h_year}|{h_dur}|{h_qual}|{is_expl_str}"`. -/
def hiddenPayload (item : SearchResult) : List Char :=
  item.name ++ '|' :: fullArtist item.artists
    ++ '|' :: hiddenYear item.year
    ++ '|' :: hiddenDur item.duration
    ++ '|' :: hiddenQual item.additional
    ++ '|' :: explFlag item.explicit

/-- Lines 77-80: the visible half.  `detailed` is false exactly for artist
queries (lines 20-31). -/
def visibleRow (detailed : Bool) (index : Nat) (item : SearchResult) : List Char :=
  if detailed then
    pyLJust (pyStr index ++ ['.']) 4
      ++ ' ' :: pyLJust (truncName item.name) 40
      ++ ' ' :: pyLJust (yearField item.year) 6
      ++ ' ' :: pyLJust (shortDur (fullDur item.duration)) 8
      ++ ' ' :: pyLJust (explChar item.explicit) 3
      ++ ' ' :: shortQual (fullQual item.additional)
  else
    pyLJust (pyStr index ++ ['.']) 4 ++ ' ' :: item.name

/-- Line 98: `choices.append(f"{visible}\t{hidden}")`. -/
def mkRow (detailed : Bool) (index : Nat) (item : SearchResult) : List Char :=
  visibleRow detailed index item ++ '\t' :: hiddenPayload item

/-- Lines 43-98: `for index, item in enumerate(items, start=1): …`. -/
def buildChoices (detailed : Bool) (index : Nat) : List SearchResult → List (List Char)
  | [] => []
  | item :: rest => mkRow detailed index item :: buildChoices detailed (index + 1) rest

/-- The full `choices` list (enumeration starts at 1). -/
def choices (detailed : Bool) (items : List SearchResult) : List (List Char) :=
  buildChoices detailed 1 items

/-! ### Character non-membership in formatter fields -/

/-- The delimiters may not occur inside the artists value. -/
def artistFree (c : Char) : ArtistsVal → Prop
  | .single s => c ∉ s
  | .many l => ∀ a ∈ l, c ∉ a

theorem not_mem_pyStr {c : Char} (hc : c.isDigit = false) (n : Nat) :
    c ∉ pyStr n := by
  intro hm
  have hall := (List.all_eq_true.mp (pyStr_all_digits n)) c hm
  simp_all

theorem not_mem_pyLJust {c : Char} {l : List Char} (w : Nat)
    (hsp : c ≠ ' ') (h : c ∉ l) : c ∉ pyLJust l w := by
  simp only [pyLJust, List.mem_append, List.mem_replicate]
  rintro (hm | ⟨-, hm⟩)
  · exact h hm
  · exact hsp hm

theorem not_mem_pad2 {c : Char} (hc : c.isDigit = false) (n : Nat) :
    c ∉ pad2 n := by
  have h0 : c ≠ '0' := by rintro rfl; simp_all
  simp only [pad2]
  split
  · simp only [List.mem_cons, not_or]
    exact ⟨h0, not_mem_pyStr hc n⟩
  · exact not_mem_pyStr hc n

theorem not_mem_beauty_format_seconds {c : Char} (hc : c.isDigit = false)
    (hh : c ≠ 'h') (hcol : c ≠ ':') (d : Nat) :
    c ∉ beauty_format_seconds d := by
  simp only [beauty_format_seconds]
  split
  · simp only [List.cons_append, List.append_assoc, List.mem_append,
      List.mem_cons, not_or]
    exact ⟨not_mem_pyStr hc _, hh, hcol, not_mem_pad2 hc _, hcol,
      not_mem_pad2 hc _⟩
  · simp only [List.mem_append, List.mem_cons, not_or]
    exact ⟨not_mem_pad2 hc _, hcol, not_mem_pad2 hc _⟩

theorem not_mem_fullDur {c : Char} (hc : c.isDigit = false) (hdash : c ≠ '-')
    (hcol : c ≠ ':') (hh : c ≠ 'h') (d : Option Nat) : c ∉ fullDur d := by
  simp only [fullDur]
  split
  · exact not_mem_beauty_format_seconds hc hh hcol _
  · intro hm
    simp only [List.mem_cons, List.not_mem_nil, or_false] at hm
    rcases hm with rfl | rfl | rfl | rfl | rfl
    exacts [hdash rfl, hdash rfl, hcol rfl, hdash rfl, hdash rfl]

theorem splitOnChar_ne_nil (sep : Char) (l : List Char) :
    splitOnChar sep l ≠ [] := by
  cases l with
  | nil => simp [splitOnChar]
  | cons a rest =>
    simp only [splitOnChar]
    split
    · simp
    · split <;> simp

theorem splitOnChar_cons (sep a : Char) (rest : List Char) :
    splitOnChar sep (a :: rest) =
      match splitOnChar sep rest with
      | [] => [[]]
      | x :: xs => if a = sep then [] :: x :: xs else (a :: x) :: xs := rfl

theorem mem_of_mem_splitOnChar {sep : Char} {l p : List Char} {c : Char}
    (hp : p ∈ splitOnChar sep l) (hc : c ∈ p) : c ∈ l := by
  induction l generalizing p with
  | nil =>
    simp only [splitOnChar, List.mem_singleton] at hp
    subst hp
    exact absurd hc (List.not_mem_nil c)
  | cons a rest ih =>
    rcases hsp : splitOnChar sep rest with _ | ⟨x, xs⟩
    · exact absurd hsp (splitOnChar_ne_nil sep rest)
    · simp only [splitOnChar_cons, hsp] at hp
      by_cases ha : a = sep
      · rw [if_pos ha] at hp
        rcases List.mem_cons.mp hp with rfl | hp'
        · exact absurd hc (List.not_mem_nil c)
        · exact List.mem_cons_of_mem a (ih (by rw [hsp]; exact hp') hc)
      · rw [if_neg ha] at hp
        rcases List.mem_cons.mp hp with rfl | hp'
        · rcases List.mem_cons.mp hc with rfl | hc'
          · exact List.mem_cons_self c rest
          · exact List.mem_cons_of_mem a
              (ih (by rw [hsp]; exact List.mem_cons_self x xs) hc')
        · exact List.mem_cons_of_mem a
            (ih (by rw [hsp]; exact List.mem_cons_of_mem x hp') hc)

theorem not_mem_shortDur {c : Char} {fd : List Char} (h : c ∉ fd)
    (hcol : c ≠ ':') : c ∉ shortDur fd := by
  simp only [shortDur]
  split
  · split
    · rename_i p0 p1 rest heq
      simp only [List.mem_append, List.mem_cons, not_or]
      refine ⟨?_, hcol, ?_⟩
      · intro hm
        exact h (mem_of_mem_splitOnChar (by rw [heq]; simp) hm)
      · intro hm
        exact h (mem_of_mem_splitOnChar (by rw [heq]; simp) hm)
    · exact h
  · exact h

theorem not_mem_truncName {c : Char} {name : List Char} (h : c ∉ name)
    (hell : c ≠ '…') : c ∉ truncName name := by
  simp only [truncName]
  split
  · simp only [List.mem_append, List.mem_singleton, not_or]
    exact ⟨fun hm => h (List.mem_of_mem_take hm), hell⟩
  · exact h

theorem not_mem_yearField {c : Char} (hc : c.isDigit = false) (hdash : c ≠ '-')
    (y : Option Nat) : c ∉ yearField y := by
  simp only [yearField]
  split
  · exact not_mem_pyStr hc _
  · intro hm
    simp only [List.mem_cons, List.not_mem_nil, or_false] at hm
    rcases hm with rfl | rfl | rfl | rfl <;> exact hdash rfl

theorem not_mem_hiddenYear {c : Char} (hc : c.isDigit = false) (hdash : c ≠ '-')
    (y : Option Nat) : c ∉ hiddenYear y := by
  simp only [hiddenYear]
  split
  · exact not_mem_yearField hc hdash y
  · simp

theorem not_mem_hiddenDur {c : Char} (hc : c.isDigit = false) (hdash : c ≠ '-')
    (hcol : c ≠ ':') (hh : c ≠ 'h') (d : Option Nat) : c ∉ hiddenDur d := by
  simp only [hiddenDur]
  split
  · exact not_mem_fullDur hc hdash hcol hh d
  · simp

theorem not_mem_pyJoin {c : Char} {sep : List Char} {l : List (List Char)}
    (hsep : c ∉ sep) (h : ∀ a ∈ l, c ∉ a) : c ∉ pyJoin sep l := by
  induction l with
  | nil => simp [pyJoin]
  | cons x rest ih =>
    cases rest with
    | nil => exact h x (by simp)
    | cons y t =>
      simp only [pyJoin, List.append_assoc, List.mem_append, not_or]
      exact ⟨h x (by simp), hsep,
        ih (fun a ha => h a (List.mem_cons_of_mem x ha))⟩

theorem not_mem_fullArtist {c : Char} {av : ArtistsVal} (hsp : c ≠ ' ')
    (hcom : c ≠ ',') (h : artistFree c av) : c ∉ fullArtist av := by
  cases av with
  | single s => exact h
  | many l =>
    refine not_mem_pyJoin ?_ h
    intro hm
    rw [show (", ".data) = [',', ' '] from rfl] at hm
    simp only [List.mem_cons, List.not_mem_nil, or_false] at hm
    rcases hm with rfl | rfl
    exacts [hcom rfl, hsp rfl]

theorem not_mem_fullQual {c : Char} {add : List (List Char)} (hdash : c ≠ '-')
    (h : ∀ a ∈ add, c ∉ a) : c ∉ fullQual add := by
  cases add with
  | nil =>
    intro hm
    rw [show fullQual [] = ['-', '-', '-', '-'] from rfl] at hm
    simp only [List.mem_cons, List.not_mem_nil, or_false] at hm
    rcases hm with rfl | rfl | rfl | rfl <;> exact hdash rfl
  | cons a t => exact h a (by simp)

theorem not_mem_hiddenQual {c : Char} {add : List (List Char)} (hdash : c ≠ '-')
    (h : ∀ a ∈ add, c ∉ a) : c ∉ hiddenQual add := by
  simp only [hiddenQual]
  split
  · simp
  · exact not_mem_fullQual hdash h

theorem not_mem_shortQual {c : Char} {fq : List Char} (h : c ∉ fq)
    (hD : c ∉ "DA".data) (hM : c ∉ "Mast".data) (hH : c ∉ "HiFi".data) :
    c ∉ shortQual fq := by
  simp only [shortQual]
  split
  · exact hD
  · split
    · exact hM
    · split
      · exact hH
      · intro hm; exact h (List.mem_of_mem_take hm)

theorem not_mem_explChar {c : Char} (hE : c ≠ 'E') (hsp : c ≠ ' ') (e : Bool) :
    c ∉ explChar e := by
  intro hm
  cases e
  · simp [explChar] at hm; exact hsp hm
  · simp [explChar] at hm; exact hE hm

theorem not_mem_explFlag {c : Char} (hc : c.isDigit = false) (e : Bool) :
    c ∉ explFlag e := by
  intro hm
  cases e
  · simp [explFlag] at hm; subst hm; simp_all
  · simp [explFlag] at hm; subst hm; simp_all

/-- The visible half never contains the delimiter characters, provided the
raw fields do not. -/
theorem not_mem_visibleRow {c : Char} (hc : c.isDigit = false) (hsp : c ≠ ' ')
    (hdot : c ≠ '.') (hdash : c ≠ '-') (hcol : c ≠ ':') (hh : c ≠ 'h')
    (hell : c ≠ '…') (hE : c ≠ 'E') (hD : c ∉ "DA".data) (hM : c ∉ "Mast".data)
    (hH : c ∉ "HiFi".data) (detailed : Bool) (index : Nat) {item : SearchResult}
    (hname : c ∉ item.name) (hadd : ∀ a ∈ item.additional, c ∉ a) :
    c ∉ visibleRow detailed index item := by
  have hidx : c ∉ pyStr index ++ ['.'] := by
    simp only [List.mem_append, List.mem_singleton]
    rintro (hm | rfl)
    · exact not_mem_pyStr hc index hm
    · exact hdot rfl
  simp only [visibleRow]
  split
  · simp only [List.cons_append, List.append_assoc, List.mem_append,
      List.mem_cons, not_or]
    exact ⟨not_mem_pyLJust 4 hsp hidx, hsp,
      not_mem_pyLJust 40 hsp (not_mem_truncName hname hell), hsp,
      not_mem_pyLJust 6 hsp (not_mem_yearField hc hdash item.year), hsp,
      not_mem_pyLJust 8 hsp
        (not_mem_shortDur (not_mem_fullDur hc hdash hcol hh item.duration) hcol),
      hsp, not_mem_pyLJust 3 hsp (not_mem_explChar hE hsp item.explicit), hsp,
      not_mem_shortQual (not_mem_fullQual hdash hadd) hD hM hH⟩
  · simp only [List.mem_append, List.mem_cons, not_or]
    exact ⟨not_mem_pyLJust 4 hsp hidx, hsp, hname⟩

/-- The hidden payload never contains a character other than `|` that is
absent from the raw fields. -/
theorem not_mem_hiddenPayload {c : Char} (hc : c.isDigit = false)
    (hsp : c ≠ ' ') (hcom : c ≠ ',') (hdash : c ≠ '-') (hcol : c ≠ ':')
    (hh : c ≠ 'h') (hpipe : c ≠ '|') {item : SearchResult}
    (hname : c ∉ item.name) (hart : artistFree c item.artists)
    (hadd : ∀ a ∈ item.additional, c ∉ a) :
    c ∉ hiddenPayload item := by
  simp only [hiddenPayload, List.cons_append, List.append_assoc,
    List.mem_append, List.mem_cons, not_or]
  exact ⟨hname, hpipe, not_mem_fullArtist hsp hcom hart, hpipe,
    not_mem_hiddenYear hc hdash item.year, hpipe,
    not_mem_hiddenDur hc hdash hcol hh item.duration, hpipe,
    not_mem_hiddenQual hdash hadd, hpipe, not_mem_explFlag hc item.explicit⟩

instance (c : Char) (av : ArtistsVal) : Decidable (artistFree c av) :=
  match av with
  | .single s => (inferInstance : Decidable (c ∉ s))
  | .many l => (inferInstance : Decidable (∀ a ∈ l, c ∉ a))

theorem buildChoices_length (d : Bool) (k : Nat) (items : List SearchResult) :
    (buildChoices d k items).length = items.length := by
  induction items generalizing k with
  | nil => rfl
  | cons it rest ih => simp [buildChoices, ih]

theorem buildChoices_getElem? (d : Bool) (k : Nat) (items : List SearchResult)
    (i : Nat) :
    (buildChoices d k items)[i]? = (items[i]?).map (fun it => mkRow d (k + i) it) := by
  induction items generalizing k i with
  | nil => simp [buildChoices]
  | cons it rest ih =>
    cases i with
    | zero => simp [buildChoices]
    | succ j =>
      simp only [buildChoices, List.getElem?_cons_succ, ih (k + 1) j]
      have : k + 1 + j = k + (j + 1) := by omega
      rw [this]

theorem visibleRow_ne_nil (d : Bool) (idx : Nat) (item : SearchResult) :
    visibleRow d idx item ≠ [] := by
  intro hcontra
  have hidx := pyStr_ne_nil idx
  simp only [visibleRow] at hcontra
  split at hcontra <;>
    simp [pyLJust, List.append_eq_nil] at hcontra

/-- The row has exactly one tab when the raw fields are tab-free. -/
theorem count_mkRow_tab (d : Bool) (idx : Nat) {item : SearchResult}
    (hname : '\t' ∉ item.name) (hart : artistFree '\t' item.artists)
    (hadd : ∀ a ∈ item.additional, '\t' ∉ a) :
    (mkRow d idx item).count '\t' = 1 := by
  have hv : '\t' ∉ visibleRow d idx item :=
    not_mem_visibleRow (by decide) (by decide) (by decide) (by decide) (by decide)
      (by decide) (by decide) (by decide) (by decide) (by decide) (by decide)
      d idx hname hadd
  have hhp : '\t' ∉ hiddenPayload item :=
    not_mem_hiddenPayload (by decide) (by decide) (by decide) (by decide)
      (by decide) (by decide) (by decide) hname hart hadd
  simp [mkRow, List.count_append, List.count_cons,
    List.count_eq_zero.mpr hv, List.count_eq_zero.mpr hhp]

/-- The hidden payload has exactly five pipes when the raw fields are
pipe-free. -/
theorem count_hiddenPayload_pipe {item : SearchResult}
    (hname : '|' ∉ item.name) (hart : artistFree '|' item.artists)
    (hadd : ∀ a ∈ item.additional, '|' ∉ a) :
    (hiddenPayload item).count '|' = 5 := by
  have h2 : '|' ∉ fullArtist item.artists :=
    not_mem_fullArtist (by decide) (by decide) hart
  have h3 : '|' ∉ hiddenYear item.year :=
    not_mem_hiddenYear (by decide) (by decide) _
  have h4 : '|' ∉ hiddenDur item.duration :=
    not_mem_hiddenDur (by decide) (by decide) (by decide) (by decide) _
  have h5 : '|' ∉ hiddenQual item.additional := not_mem_hiddenQual (by decide) hadd
  have h6 : '|' ∉ explFlag item.explicit := not_mem_explFlag (by decide) _
  simp [hiddenPayload, List.count_append, List.count_cons,
    List.count_eq_zero.mpr hname, List.count_eq_zero.mpr h2,
    List.count_eq_zero.mpr h3, List.count_eq_zero.mpr h4,
    List.count_eq_zero.mpr h5, List.count_eq_zero.mpr h6]

/-- C5: a list of `N` search results produces exactly `N` rows; each row is
the visible half, one tab, and the hidden payload; the visible half is
non-empty; the row contains exactly one tab; and the hidden payload has
exactly 5 pipes, i.e. 6 pipe-separated fields, which by definition of
`hiddenPayload` are name, joined artists, year-or-empty,
full-duration-or-empty, full-quality-or-empty and the "1"/"0" explicit
flag — all provided the raw name/artist/quality fields contain neither a
tab nor a pipe (the delimiters are chosen not to occur in the fields). -/
theorem candidate_formatter_C5 (detailed : Bool) (items : List SearchResult)
    (h : ∀ item ∈ items,
      ('\t' ∉ item.name ∧ artistFree '\t' item.artists ∧
        ∀ a ∈ item.additional, '\t' ∉ a) ∧
      ('|' ∉ item.name ∧ artistFree '|' item.artists ∧
        ∀ a ∈ item.additional, '|' ∉ a)) :
    (choices detailed items).length = items.length ∧
    ∀ i, ∀ hi : i < items.length,
      (choices detailed items)[i]? =
        some (mkRow detailed (i + 1) (items.get ⟨i, hi⟩)) ∧
      mkRow detailed (i + 1) (items.get ⟨i, hi⟩) =
        visibleRow detailed (i + 1) (items.get ⟨i, hi⟩) ++
          '\t' :: hiddenPayload (items.get ⟨i, hi⟩) ∧
      visibleRow detailed (i + 1) (items.get ⟨i, hi⟩) ≠ [] ∧
      (mkRow detailed (i + 1) (items.get ⟨i, hi⟩)).count '\t' = 1 ∧
      (hiddenPayload (items.get ⟨i, hi⟩)).count '|' = 5 := by
  refine ⟨buildChoices_length detailed 1 items, ?_⟩
  intro i hi
  have hmem : items.get ⟨i, hi⟩ ∈ items := items.get_mem _ _
  obtain ⟨⟨ht1, ht2, ht3⟩, ⟨hp1, hp2, hp3⟩⟩ := h _ hmem
  refine ⟨?_, rfl, visibleRow_ne_nil _ _ _, count_mkRow_tab _ _ ht1 ht2 ht3,
    count_hiddenPayload_pipe hp1 hp2 hp3⟩
  rw [choices, buildChoices_getElem?, List.getElem?_eq_getElem hi]
  simp only [Option.map_some']
  have h1 : 1 + i = i + 1 := by omega
  rw [h1]
  rfl

/-- Closed witness for C5 on a one-element list. -/
theorem candidate_formatter_C5_witness :
    (choices true [sampleResult]).length = 1 ∧
    (choices true [sampleResult])[0]? = some (mkRow true 1 sampleResult) ∧
    (mkRow true 1 sampleResult).count '\t' = 1 ∧
    (hiddenPayload sampleResult).count '|' = 5 := by
  have h := candidate_formatter_C5 true [sampleResult] (by decide)
  have h0 := h.2 0 (by decide)
  exact ⟨h.1, by simpa using h0.1, by simpa using h0.2.2.2.1,
    by simpa using h0.2.2.2.2⟩

/-- C6: a name longer than 38 characters is shown as its first 37 characters
plus a trailing ellipsis, 38 characters in total; a name of at most 38
characters is shown untruncated, without the marker, padded to the fixed
40-character column. -/
theorem name_truncation_C6 :
    (∀ name : List Char, name.length > 38 →
      truncName name = name.take 37 ++ ['…'] ∧
      (truncName name).length = 38 ∧
      (truncName name).getLast? = some '…') ∧
    (∀ name : List Char, name.length ≤ 38 →
      truncName name = name ∧
      pyLJust (truncName name) 40 = name ++ List.replicate (40 - name.length) ' ' ∧
      (pyLJust (truncName name) 40).length = 40) := by
  constructor
  · intro name hlen
    have heq : truncName name = name.take 37 ++ ['…'] := by
      unfold truncName
      rw [if_pos hlen]
    refine ⟨heq, ?_, ?_⟩
    · rw [heq]
      simp [List.length_take]
      omega
    · rw [heq]
      exact List.getLast?_concat _
  · intro name hlen
    have heq : truncName name = name := by
      unfold truncName
      rw [if_neg (by omega)]
    refine ⟨heq, by rw [heq, pyLJust], ?_⟩
    rw [heq]
    simp [pyLJust]
    omega

/-- Closed witness for C6 at a 39-character and a 5-character name. -/
theorem name_truncation_C6_witness :
    (List.replicate 39 'a').length > 38 ∧
    truncName (List.replicate 39 'a') = (List.replicate 39 'a').take 37 ++ ['…'] ∧
    (truncName (List.replicate 39 'a')).length = 38 ∧
    "Short".data.length ≤ 38 ∧
    truncName "Short".data = "Short".data := by
  have h1 := name_truncation_C6.1 (List.replicate 39 'a') (by decide)
  have h2 := name_truncation_C6.2 "Short".data (by decide)
  exact ⟨by decide, h1.1, h1.2.1, by decide, h2.1⟩

/-- C9: a year of 0 and a duration of 0 seconds behave exactly like absent
values: the visible row shows the "----" and "--:--" placeholders, the
hidden fields are empty, and the whole produced row is identical to the one
for a `SearchResult` with the field missing. -/
theorem zero_year_duration_C9 :
    yearField (some 0) = "----".data ∧
    hiddenYear (some 0) = [] ∧
    fullDur (some 0) = "--:--".data ∧
    hiddenDur (some 0) = [] ∧
    (∀ (detailed : Bool) (idx : Nat) (rid nm : List Char) (ar : ArtistsVal)
        (dur : Option Nat) (ex : Bool) (add : List (List Char)),
      mkRow detailed idx ⟨rid, nm, ar, some 0, dur, ex, add⟩ =
        mkRow detailed idx ⟨rid, nm, ar, none, dur, ex, add⟩) ∧
    (∀ (detailed : Bool) (idx : Nat) (rid nm : List Char) (ar : ArtistsVal)
        (yr : Option Nat) (ex : Bool) (add : List (List Char)),
      mkRow detailed idx ⟨rid, nm, ar, yr, some 0, ex, add⟩ =
        mkRow detailed idx ⟨rid, nm, ar, yr, none, ex, add⟩) := by
  refine ⟨rfl, rfl, rfl, rfl, ?_, ?_⟩
  · intros
    simp [mkRow, visibleRow, hiddenPayload, yearField, hiddenYear, pyTruthy]
  · intros
    simp [mkRow, visibleRow, hiddenPayload, fullDur, hiddenDur, pyTruthy]



/-! ## URL Router (`orpheus.py` lines 294-334)

```
for link in arguments:
    if link.startswith('http'):
        url = urlparse(link)
        components = url.path.split('/')
        service_name = None
        for i in orpheus.module_netloc_constants:
            if re.findall(i, url.netloc): service_name = orpheus.module_netloc_constants[i]
        if not service_name:
            raise Exception(f'URL location "{url.netloc}" is not found in modules!')
        if service_name not in media_to_download: media_to_download[service_name] = []
        if orpheus.module_settings[service_name].url_decoding is ManualEnum.manual:
            module = orpheus.load_module(service_name)
            media_to_download[service_name].append(module.custom_url_parse(link))
        else:
            if not components or len(components) <= 2: print(...); exit()
            url_constants = orpheus.module_settings[service_name].url_constants
            if not url_constants:
                url_constants = {'track': …, 'album': …, 'playlist': …, 'artist': …}
            type_matches = [media_type for url_check, media_type in url_constants.items()
                            if url_check in components]
            if not type_matches: print(...); exit()
            media_to_download[service_name].append(
                MediaIdentification(media_type=type_matches[-1], media_id=components[-1]))
    else:
        raise Exception(f'Invalid argument: "{link}"')
```
-/

/-- Enum `ManualEnum` from `orpheus.core` (consumed interface). -/
inductive ManualEnum where
  | orpheus | manual
  deriving DecidableEq, Repr

/-- Per-module routing settings (the parts of `module_settings` the router
reads): `url_constants` is a Python dict, modelled as an insertion-ordered
association list. -/
structure ModuleSettings where
  url_decoding : ManualEnum
  url_constants : List (List Char × DownloadTypeEnum)
  deriving DecidableEq, Repr

/-- The registry consumed by the router.  `module_netloc_constants` maps
regex patterns to module names in dict iteration order;
`netlocMatches pat host` models the truthiness of `re.findall(pat, host)`
(regular-expression semantics are abstract: the router only forwards the
pattern and the host to `re`). -/
structure OrpheusRegistry where
  module_netloc_constants : List (List Char × List Char)
  module_settings : List Char → ModuleSettings
  netlocMatches : List Char → List Char → Bool

/-- An input link, pre-parsed: `raw` is the link text, `netloc` and `path`
are `urlparse(link).netloc` / `.path` (`urlparse` is the Python standard
library). -/
structure UrlLink where
  raw : List Char
  netloc : List Char
  path : List Char

/-- Lines 319-324: the default four-entry routing rule set. -/
def defaultUrlConstants : List (List Char × DownloadTypeEnum) :=
  [("track".data, .track), ("album".data, .album),
   ("playlist".data, .playlist), ("artist".data, .artist)]

/-- Lines 302-304: iterate over all netloc patterns in registry order; every
match overwrites `service_name`, so the last matching pattern wins. -/
def resolveServiceName (reg : OrpheusRegistry) (netloc : List Char) :
    Option (List Char) :=
  reg.module_netloc_constants.foldl
    (fun acc pr => if reg.netlocMatches pr.1 netloc then some pr.2 else acc) none

/-- Lines 317-324: the effective routing rule set (`if not url_constants`:
an empty dict is falsy, so the default applies). -/
def effRules (reg : OrpheusRegistry) (svc : List Char) :
    List (List Char × DownloadTypeEnum) :=
  if (reg.module_settings svc).url_constants.isEmpty then defaultUrlConstants
  else (reg.module_settings svc).url_constants

/-- Lines 298-332 for a single link: route one URL.  `customParse` stands
for `load_module(service_name).custom_url_parse`.  `comps.getLastD []` is
`components[-1]`; the length guard makes the `[]` default unreachable. -/
def routeUrl (reg : OrpheusRegistry)
    (customParse : List Char → UrlLink → MediaIdentification)
    (link : UrlLink) : Except OrpheusError (List Char × MediaIdentification) :=
  let comps := splitOnChar '/' link.path
  match resolveServiceName reg link.netloc with
  | none => .error (.unroutableLocation link.netloc)
  | some svc =>
    if (reg.module_settings svc).url_decoding = ManualEnum.manual then
      .ok (svc, customParse svc link)
    else
      if comps.isEmpty || comps.length ≤ 2 then .error .malformedUrl
      else
        let type_matches := (effRules reg svc).filterMap
          (fun pr => if comps.contains pr.1 then some pr.2 else none)
        match type_matches.getLast? with
        | none => .error .noTypeMatch
        | some mt => .ok (svc, ⟨mt, comps.getLastD []⟩)

/-- A download-request batch: module name → ordered identifications
(a Python dict in insertion order). -/
abbrev DownloadRequestBatch := List (List Char × List MediaIdentification)

/-- Lines 307 and 311/332: ensure the module's key exists, then append the
identification to its sequence (Python dicts keep insertion order and new
keys go last). -/
def dictAppend (batch : DownloadRequestBatch) (svc : List Char)
    (mi : MediaIdentification) : DownloadRequestBatch :=
  if batch.any (fun pr => pr.1 == svc) then
    batch.map (fun pr => if pr.1 == svc then (pr.1, pr.2 ++ [mi]) else pr)
  else batch ++ [(svc, [mi])]

/-- The `for link in arguments` loop, starting from `batch`; a raised
exception or `exit()` aborts the whole loop. -/
def processLinksAux (reg : OrpheusRegistry)
    (cp : List Char → UrlLink → MediaIdentification)
    (batch : DownloadRequestBatch) :
    List UrlLink → Except OrpheusError DownloadRequestBatch
  | [] => .ok batch
  | link :: rest =>
    if List.isPrefixOf "http".data link.raw then
      match routeUrl reg cp link with
      | .error e => .error e
      | .ok (svc, mi) => processLinksAux reg cp (dictAppend batch svc mi) rest
    else .error .invalidArgument

/-- Lines 296-334: the whole URL branch, from an empty dict. -/
def processLinks (reg : OrpheusRegistry)
    (cp : List Char → UrlLink → MediaIdentification)
    (links : List UrlLink) : Except OrpheusError DownloadRequestBatch :=
  processLinksAux reg cp [] links

/-- Lines 346-347: `if not media_to_download: print('No links given')` —
a warning only; `orpheus_core_download` is called right after either way. -/
def noLinksWarning (batch : DownloadRequestBatch) : Option (List Char) :=
  if batch.isEmpty then some "No links given".data else none

deriving instance DecidableEq for Except

theorem foldl_last_match {α β : Type} (p : α × β → Bool) (l : List (α × β))
    (acc : Option β) :
    l.foldl (fun a pr => if p pr then some pr.2 else a) acc =
      match (l.filter p).getLast? with
      | some pr => some pr.2
      | none => acc := by
  induction l using List.reverseRecOn generalizing acc with
  | nil => rfl
  | append_singleton t x ih =>
    by_cases hx : p x
    · simp [List.foldl_append, List.filter_append, hx, List.getLast?_concat]
    · simp [List.foldl_append, List.filter_append, hx, ih]

theorem filterMap_if_getLast? {α β : Type} (p : α × β → Bool) (l : List (α × β)) :
    (l.filterMap (fun pr => if p pr then some pr.2 else none)).getLast? =
      ((l.filter p).getLast?).map Prod.snd := by
  induction l using List.reverseRecOn with
  | nil => rfl
  | append_singleton t x ih =>
    by_cases hx : p x
    · simp [List.filterMap_append, List.filter_append, hx, List.getLast?_concat]
    · simp [List.filterMap_append, List.filter_append, hx, ih]

/-! ### Concrete registries and links for the closed witnesses.
The sample matcher interprets a pattern as a plain substring test, which is
one legitimate behaviour of `re.findall` on these patterns. -/

def sampleParse : List Char → UrlLink → MediaIdentification :=
  fun _ _ => ⟨.track, "custom".data⟩

def sampleRegistry : OrpheusRegistry where
  module_netloc_constants := [("deezer\\.com".data, "deezer".data)]
  module_settings := fun _ => ⟨ManualEnum.orpheus, []⟩
  netlocMatches := fun _ host => pyInSubstr "deezer.com".data host

def manualRegistry : OrpheusRegistry where
  module_netloc_constants := [("deezer\\.com".data, "deezer".data)]
  module_settings := fun _ => ⟨ManualEnum.manual, []⟩
  netlocMatches := fun _ host => pyInSubstr "deezer.com".data host

def dualRegistry : OrpheusRegistry where
  module_netloc_constants := [("a".data, "mod1".data), ("b".data, "mod2".data)]
  module_settings := fun _ => ⟨ManualEnum.orpheus, []⟩
  netlocMatches := fun pat host => pyInSubstr pat host

def deezerLink : UrlLink :=
  ⟨"https://www.deezer.com/album/12345".data, "www.deezer.com".data,
    "/album/12345".data⟩

def shortLink : UrlLink :=
  ⟨"https://deezer.com/xyz".data, "deezer.com".data, "/xyz".data⟩

def abLink : UrlLink :=
  ⟨"https://ab.com/track/1".data, "ab.com".data, "/track/1".data⟩

def noMatchLink : UrlLink :=
  ⟨"https://xyz.org/track/9".data, "xyz.org".data, "/track/9".data⟩

/-- C3: the host is tested against every registered pattern in registry
iteration order and the module of the last matching pattern wins; if no
pattern matches, routing fails with the unroutable-location error. -/
theorem netloc_resolution_C3 (reg : OrpheusRegistry)
    (cp : List Char → UrlLink → MediaIdentification) (link : UrlLink) :
    resolveServiceName reg link.netloc =
      ((reg.module_netloc_constants.filter
        (fun pr => reg.netlocMatches pr.1 link.netloc)).getLast?).map Prod.snd ∧
    ((∀ pr ∈ reg.module_netloc_constants,
        reg.netlocMatches pr.1 link.netloc = false) →
      routeUrl reg cp link = .error (.unroutableLocation link.netloc)) := by
  have hfold := foldl_last_match
    (fun pr => reg.netlocMatches pr.1 link.netloc) reg.module_netloc_constants none
  constructor
  · rw [resolveServiceName, hfold]
    cases hl : (reg.module_netloc_constants.filter
      (fun pr => reg.netlocMatches pr.1 link.netloc)).getLast? <;> simp
  · intro hnone
    have hfil : reg.module_netloc_constants.filter
        (fun pr => reg.netlocMatches pr.1 link.netloc) = [] :=
      List.filter_eq_nil_iff.mpr (fun pr hm => by simp [hnone pr hm])
    have hres : resolveServiceName reg link.netloc = none := by
      rw [resolveServiceName, hfold, hfil]
      rfl
    simp [routeUrl, hres]

/-- Closed witness for C3: with two substring patterns both matching host
`ab.com`, the second (last-iterated) module wins; a host matching nothing is
unroutable. -/
theorem netloc_resolution_C3_witness :
    resolveServiceName dualRegistry abLink.netloc = some "mod2".data ∧
    routeUrl dualRegistry sampleParse noMatchLink =
      .error (.unroutableLocation noMatchLink.netloc) := by
  constructor
  · rw [(netloc_resolution_C3 dualRegistry sampleParse abLink).1]
    decide
  · exact (netloc_resolution_C3 dualRegistry sampleParse noMatchLink).2 (by decide)

/-- C2: for a URL routed to a module without manual URL decoding, the
effective rule set is the module mapping when non-empty, else the default
four entries; among the rule keys occurring literally in the path segments
the type of the last one in mapping iteration order is selected; no
occurring key fails the resolution; and the media identifier is the final
path segment. -/
theorem auto_type_resolution_C2 (reg : OrpheusRegistry)
    (cp : List Char → UrlLink → MediaIdentification) (link : UrlLink)
    (svc : List Char)
    (hsvc : resolveServiceName reg link.netloc = some svc)
    (hauto : (reg.module_settings svc).url_decoding ≠ ManualEnum.manual)
    (hlen : 2 < (splitOnChar '/' link.path).length) :
    effRules reg svc = (if (reg.module_settings svc).url_constants.isEmpty
      then defaultUrlConstants else (reg.module_settings svc).url_constants) ∧
    (((effRules reg svc).filter
        (fun pr => (splitOnChar '/' link.path).contains pr.1)) = [] →
      routeUrl reg cp link = .error .noTypeMatch) ∧
    ∀ pr, ((effRules reg svc).filter
        (fun pr => (splitOnChar '/' link.path).contains pr.1)).getLast? = some pr →
      routeUrl reg cp link =
        .ok (svc, ⟨pr.2, (splitOnChar '/' link.path).getLastD []⟩) := by
  have hguard : ((splitOnChar '/' link.path).isEmpty
      || decide ((splitOnChar '/' link.path).length ≤ 2)) = false := by
    have h1 : (splitOnChar '/' link.path).isEmpty = false := by
      cases hc : splitOnChar '/' link.path
      · rw [hc] at hlen; simp at hlen
      · rfl
    rw [h1]
    simp
    omega
  refine ⟨rfl, ?_, ?_⟩
  · intro hfil
    simp only [routeUrl, hsvc]
    rw [if_neg hauto, if_neg (by simp [hguard])]
    rw [filterMap_if_getLast?
      (fun pr => (splitOnChar '/' link.path).contains pr.1), hfil]
    rfl
  · intro pr hlast
    simp only [routeUrl, hsvc]
    rw [if_neg hauto, if_neg (by simp [hguard])]
    rw [filterMap_if_getLast?
      (fun pr => (splitOnChar '/' link.path).contains pr.1), hlast]
    rfl

/-- Closed witness for C2: the spec example
`https://www.deezer.com/album/12345` with default rules resolves to
`(deezer, album, "12345")`. -/
theorem auto_type_resolution_C2_witness :
    routeUrl sampleRegistry sampleParse deezerLink =
      .ok ("deezer".data, ⟨DownloadTypeEnum.album, "12345".data⟩) := by
  have h := (auto_type_resolution_C2 sampleRegistry sampleParse deezerLink
    "deezer".data (by decide) (by decide) (by decide)).2.2
    ("album".data, DownloadTypeEnum.album) (by decide)
  rw [h]
  decide

/-- C4 (amended): the path-length guard applies only on the automatic path:
for a URL routed to a module that does not declare manual URL decoding, a
path with at most 2 segments fails with MalformedURL. -/
theorem path_guard_C4 (reg : OrpheusRegistry)
    (cp : List Char → UrlLink → MediaIdentification) (link : UrlLink)
    (svc : List Char)
    (hsvc : resolveServiceName reg link.netloc = some svc)
    (hauto : (reg.module_settings svc).url_decoding ≠ ManualEnum.manual)
    (hlen : (splitOnChar '/' link.path).length ≤ 2) :
    routeUrl reg cp link = .error .malformedUrl := by
  simp only [routeUrl, hsvc]
  rw [if_neg hauto, if_pos (by simp [hlen])]

/-- Closed witness for the amended C4: `https://deezer.com/xyz` (2 path
segments) on an automatic-decoding module fails with MalformedURL. -/
theorem path_guard_C4_witness :
    routeUrl sampleRegistry sampleParse shortLink = .error .malformedUrl :=
  path_guard_C4 sampleRegistry sampleParse shortLink "deezer".data
    (by decide) (by decide) (by decide)

/-- C4 counterexample: the claim's "regardless of whether the resolved
module declares manual URL decoding" is false.  The guard sits inside the
non-manual branch (lines 309-315): the same 2-segment URL routed to a module
declaring manual decoding is delegated to the module's own parser and yields
a MediaIdentification instead of MalformedURL. -/
theorem path_guard_C4_counterexample :
    (splitOnChar '/' shortLink.path).length = 2 ∧
    (manualRegistry.module_settings "deezer".data).url_decoding =
      ManualEnum.manual ∧
    routeUrl manualRegistry sampleParse shortLink =
      .ok ("deezer".data, ⟨DownloadTypeEnum.track, "custom".data⟩) := by
  refine ⟨by decide, by decide, ?_⟩
  rfl

/-! ## Request Aggregator (C7) -/

theorem processLinksAux_same_module (reg : OrpheusRegistry)
    (cp : List Char → UrlLink → MediaIdentification) (m : List Char)
    (mid : UrlLink → MediaIdentification) :
    ∀ (links : List UrlLink),
      (∀ l ∈ links, List.isPrefixOf "http".data l.raw = true ∧
        routeUrl reg cp l = .ok (m, mid l)) →
      ∀ xs, processLinksAux reg cp [(m, xs)] links =
        .ok [(m, xs ++ links.map mid)] := by
  intro links
  induction links with
  | nil =>
    intro _ xs
    simp [processLinksAux]
  | cons l rest ih =>
    intro h xs
    obtain ⟨hpre, hroute⟩ := h l (List.mem_cons_self l rest)
    have hda : dictAppend [(m, xs)] m (mid l) = [(m, xs ++ [mid l])] := by
      simp [dictAppend]
    simp only [processLinksAux, hpre, if_true, hroute, hda]
    rw [ih (fun a ha => h a (List.mem_cons_of_mem l ha)) (xs ++ [mid l])]
    simp

/-- C7: identifications of several URLs that resolve to the same module
appear in that module's sequence in input order; zero inputs produce an
empty batch without an error, which the caller reports as "No links given"
before the (still performed) handoff to the download pipeline. -/
theorem request_aggregator_C7 (reg : OrpheusRegistry)
    (cp : List Char → UrlLink → MediaIdentification) :
    (processLinks reg cp [] = .ok [] ∧
      noLinksWarning [] = some "No links given".data) ∧
    ∀ (links : List UrlLink) (m : List Char)
      (mid : UrlLink → MediaIdentification),
      (∀ l ∈ links, List.isPrefixOf "http".data l.raw = true ∧
        routeUrl reg cp l = .ok (m, mid l)) →
      links ≠ [] →
      processLinks reg cp links = .ok [(m, links.map mid)] := by
  refine ⟨⟨rfl, rfl⟩, ?_⟩
  intro links m mid h hne
  cases links with
  | nil => exact absurd rfl hne
  | cons l rest =>
    obtain ⟨hpre, hroute⟩ := h l (List.mem_cons_self l rest)
    have hda0 : dictAppend [] m (mid l) = [(m, [mid l])] := by
      simp [dictAppend]
    show processLinksAux reg cp [] (l :: rest) = _
    simp only [processLinksAux, hpre, if_true, hroute, hda0]
    rw [processLinksAux_same_module reg cp m mid rest
      (fun a ha => h a (List.mem_cons_of_mem l ha)) [mid l]]
    simp

def deezerLink2 : UrlLink :=
  ⟨"https://www.deezer.com/track/77".data, "www.deezer.com".data,
    "/track/77".data⟩

def deezerLink3 : UrlLink :=
  ⟨"https://deezer.com/playlist/x9".data, "deezer.com".data,
    "/playlist/x9".data⟩

/-- The identifications the three sample links resolve to. -/
def sampleMid (l : UrlLink) : MediaIdentification :=
  if l.path = "/album/12345".data then ⟨.album, "12345".data⟩
  else if l.path = "/track/77".data then ⟨.track, "77".data⟩
  else ⟨.playlist, "x9".data⟩

/-- Closed witness for C7: three same-module URLs keep their order; the
empty input gives the empty batch. -/
theorem request_aggregator_C7_witness :
    processLinks sampleRegistry sampleParse [] = .ok [] ∧
    processLinks sampleRegistry sampleParse [deezerLink, deezerLink2, deezerLink3] =
      .ok [("deezer".data,
        [sampleMid deezerLink, sampleMid deezerLink2, sampleMid deezerLink3])] := by
  have h := request_aggregator_C7 sampleRegistry sampleParse
  refine ⟨h.1.1, ?_⟩
  have h2 := h.2 [deezerLink, deezerLink2, deezerLink3] "deezer".data sampleMid
    (by decide) (by simp)
  simpa using h2

end Orpheus
